import Mathlib

/-!
# Verification of `yt` clump finding (`yt/analysis_modules/level_sets/clump_handling.py`)

A shallow embedding of the clump-finding component: the recursive `Clump`
tree, `find_children` (contour-based child construction), `_isValid`
(memoized validity predicate), `find_clumps` (the recursive threshold
stepper with its pruning/collapse rule), `add_info_item`, the text report
writers, and the pickle reduce/reconstruct pair.

External collaborators (the contour extractor `identify_contours`, the
`cut_region` derivation, field min/max, the predicate `eval`, and the
clump-info registry) are parameters of the embedding, collected in a
`World` structure; the embedded operations are parametric in the world, so
theorems quantify over every behaviour of the collaborators.

Python floats are embedded as `ℚ`, contour ids as `ℤ`, regions and
datasets as opaque `Nat` identifiers.  Console `print` calls in the source
are pure logging and are not modelled.  The recursion of `find_clumps` is
made total with an explicit fuel parameter; `none` means the fuel ran out
(the Python original has no such bound and can recurse forever, e.g. when
`d_clump <= 1`).
-/

/-- A resolved clump-info callback as produced by
`clump_info_registry.find(name, *args)`: the registry turns a name and its
parameters into a bound callable, which we identify by that data. -/
abbrev InfoEntry := String × List ℤ

/-- A region (`data` in the source) is an opaque identifier; all of its
behaviour lives in the `World`. -/
abbrev Region := Nat

/-- One node of the clump hierarchy, mirroring the attributes of
`class Clump`:
`data` (the owned region), `field`, `min_val`/`max_val` (field extrema over
the region, computed at construction), `cached_fields`, `clump_info` (list
of resolved info callbacks), `function` (the validity-predicate expression
string), `function_value` (memoized result of `_isValid`, `None` until the
first call), and `children` (`None` until `find_children` runs; the parent
back-pointer is not representable in a purely functional tree and is
treated separately for the reconstruction claims). -/
inductive Clump where
  | mk (data : Region) (field : String) (min_val max_val : ℚ)
      (cached_fields : Option Nat)
      (clump_info : List InfoEntry) (function : String)
      (function_value : Option Bool)
      (children : Option (List Clump))

namespace Clump

def data : Clump → Region
  | .mk d _ _ _ _ _ _ _ _ => d

def field : Clump → String
  | .mk _ f _ _ _ _ _ _ _ => f

def min_val : Clump → ℚ
  | .mk _ _ mn _ _ _ _ _ _ => mn

def max_val : Clump → ℚ
  | .mk _ _ _ mx _ _ _ _ _ => mx

def cached_fields : Clump → Option Nat
  | .mk _ _ _ _ cf _ _ _ _ => cf

def clump_info : Clump → List InfoEntry
  | .mk _ _ _ _ _ info _ _ _ => info

def function : Clump → String
  | .mk _ _ _ _ _ _ fn _ _ => fn

def function_value : Clump → Option Bool
  | .mk _ _ _ _ _ _ _ fv _ => fv

def children : Clump → Option (List Clump)
  | .mk _ _ _ _ _ _ _ _ ch => ch

/-- Replace the `children` attribute (models assignment `self.children = x`). -/
def setChildren : Clump → Option (List Clump) → Clump
  | .mk d f mn mx cf info fn fv _, ch => .mk d f mn mx cf info fn fv ch

/-- Replace the `data` attribute (used to state mutation-independence). -/
def setData : Clump → Region → Clump
  | .mk _ f mn mx cf info fn fv ch, d => .mk d f mn mx cf info fn fv ch

/-- Replace the memoized `function_value` attribute. -/
def setFunctionValue : Clump → Option Bool → Clump
  | .mk d f mn mx cf info fn _ ch, fv => .mk d f mn mx cf info fn fv ch

/-- `self.children` read with the `None` state collapsed to the empty
list, for stating length facts. -/
def childList (c : Clump) : List Clump := (c.children).getD []

end Clump

/-- The external collaborators consumed by the component (§6 of the spec),
bundled: `identify` is `identify_contours(data, field, min_val, max_val)`
returning `(nj, cids)` with the per-grid contour-id arrays flattened to a
list of lists; `cut_region` is `data.cut_region(["obj['contours'] == cid"],
{'contour_slices': cids})`; `size` is `region["ones"].size`; `fmin`/`fmax`
are `data[field].min()`/`.max()`; `evalPred` is Python `eval` of the
validity-expression string in the node's context; `registryFind` is
`clump_info_registry.find(name, *args)`; `evalInfo` applies a resolved
info callback to a node and formats the value. -/
structure World where
  identify : Region → String → ℚ → ℚ → Nat × List (List ℤ)
  cut_region : Region → List (List ℤ) → ℤ → Region
  size : Region → Nat
  fmin : Region → String → ℚ
  fmax : Region → String → ℚ
  evalPred : String → Clump → Bool
  registryFind : String → List ℤ → InfoEntry
  evalInfo : InfoEntry → Clump → String

/-- Insert an integer into a strictly ascending list, keeping it strictly
ascending (duplicates collapse); building block for Python's
`sorted(set(...))`. -/
def insertSorted (x : ℤ) : List ℤ → List ℤ
  | [] => [x]
  | y :: ys =>
    if x < y then x :: y :: ys
    else if x = y then y :: ys
    else y :: insertSorted x ys

/-- `sorted(unique_contours)`: the strictly ascending list of the distinct
values of `l`. -/
def uniqueSorted (l : List ℤ) : List ℤ := l.foldr insertSorted []

theorem mem_insertSorted (x a : ℤ) : ∀ l : List ℤ,
    (a ∈ insertSorted x l ↔ a = x ∨ a ∈ l) := by
  intro l
  induction l with
  | nil => simp [insertSorted]
  | cons y ys ih =>
    simp only [insertSorted]
    split
    · simp only [List.mem_cons]
    · split
      · next h2 =>
        subst h2
        simp only [List.mem_cons]
        tauto
      · simp only [List.mem_cons, ih]
        tauto

theorem sorted_insertSorted (x : ℤ) : ∀ l : List ℤ,
    l.Sorted (· < ·) → (insertSorted x l).Sorted (· < ·) := by
  intro l
  induction l with
  | nil => intro _; simp [insertSorted]
  | cons y ys ih =>
    intro hs
    rw [List.sorted_cons] at hs
    obtain ⟨hy, hys⟩ := hs
    simp only [insertSorted]
    split
    · next h1 =>
      simp only [List.sorted_cons]
      refine ⟨?_, hy, hys⟩
      intro b hb
      rcases List.mem_cons.mp hb with rfl | hb
      · exact h1
      · exact h1.trans (hy b hb)
    · next h1 =>
      split
      · next h2 =>
        simp only [List.sorted_cons]
        exact ⟨hy, hys⟩
      · next h2 =>
        have hyx : y < x := by omega
        simp only [List.sorted_cons]
        refine ⟨?_, ih hys⟩
        intro b hb
        rcases (mem_insertSorted x b ys).mp hb with rfl | hb
        · exact hyx
        · exact hy b hb

theorem sorted_uniqueSorted (l : List ℤ) : (uniqueSorted l).Sorted (· < ·) := by
  induction l with
  | nil => simp [uniqueSorted]
  | cons y ys ih => exact sorted_insertSorted y _ ih

theorem mem_uniqueSorted (a : ℤ) : ∀ l : List ℤ, (a ∈ uniqueSorted l ↔ a ∈ l) := by
  intro l
  induction l with
  | nil => simp [uniqueSorted]
  | cons y ys ih =>
    simp only [uniqueSorted, List.foldr_cons, List.mem_cons]
    rw [mem_insertSorted]
    simp only [uniqueSorted] at ih
    rw [ih]

/-- Construction of a child node inside `find_children`:
`Clump(new_clump, self, self.field, self.cached_fields,
function=self.function, clump_info=self.clump_info)`.  `__init__` computes
`min_val`/`max_val` from the new region, deep-copies the inherited
`clump_info` (value copy here), stores the inherited predicate string, and
leaves `function_value = None` and `children` unset. -/
def Clump.mkChild (w : World) (nc : Region) (parent : Clump) : Clump :=
  .mk nc parent.field (w.fmin nc parent.field) (w.fmax nc parent.field)
    parent.cached_fields parent.clump_info parent.function none none

/-- `Clump.find_children(min_val, max_val=None)`: wipes any existing
children, defaults `max_val` to `self.max_val`, runs the contour extractor,
collects the distinct contour ids over all grids in ascending order
(`sorted(set(...))`), and for each id that is not the sentinel `-1` cuts
the sub-region and appends a child clump unless the cut region has zero
points (`new_clump["ones"].size == 0` → `continue`). -/
def Clump.find_children (w : World) (c : Clump) (min_val : ℚ)
    (max_valArg : Option ℚ) : Clump :=
  let max_val := max_valArg.getD c.max_val
  let cids := (w.identify c.data c.field min_val max_val).2
  let kids := (uniqueSorted cids.flatten).filterMap (fun cid =>
    if cid = -1 then none
    else
      let new_clump := w.cut_region c.data cids cid
      if w.size new_clump = 0 then none
      else some (Clump.mkChild w new_clump c))
  c.setChildren (some kids)

/-- `Clump._isValid()`: evaluates the predicate expression only if
`self.function_value is None`, stores the result, and returns the stored
value.  Returns the (value, updated node) pair since the call mutates the
node. -/
def Clump.isValid (w : World) (c : Clump) : Bool × Clump :=
  match c.function_value with
  | some v => (v, c)
  | none =>
    let v := w.evalPred c.function c
    (v, c.setFunctionValue (some v))

/-- The survival test applied to one child after its subtree has been
resolved (body of the loop in `find_clumps`): keep the child as-is when
`child.children is not None and len(child.children) > 0`; otherwise keep
it exactly when `child._isValid()` returns true (which memoizes the
predicate result on the child); otherwise drop it. -/
def surviveStep (w : World) (k : Clump) : Option Clump :=
  match k.children with
  | some (_ :: _) => some k
  | _ =>
    let r := Clump.isValid w k
    if r.1 then some r.2 else none

/-- The `for child in clump.children` loop of `find_clumps`: run `rec`
(the recursive `find_clumps` call) on each child in order, then decide its
survival, accumulating the survivors (`these_children`) in order.  `rec`
returns `none` only when the fuel of the model runs out, in which case the
whole loop is undefined. -/
def investigateWith (w : World) (rec : Clump → Option Clump) :
    List Clump → Option (List Clump)
  | [] => some []
  | k :: ks =>
    match rec k with
    | none => none
    | some k1 =>
      match investigateWith w rec ks with
      | none => none
      | some rest =>
        match surviveStep w k1 with
        | some k2 => some (k2 :: rest)
        | none => some rest

/-- `find_clumps(clump, min_val, max_val, d_clump)` with an explicit fuel
bound on recursion depth (`none` = fuel exhausted; the Python source has
no such bound).  Mirrors the source: return at once when
`min_val >= max_val`; run `clump.find_children(min_val)` (ceiling
defaulted to the clump's own `max_val`); on exactly one child re-run on
the same node at `min_val*d_clump`; on more than one child resolve each
child recursively, filter by the survival test, and then either keep the
survivors (more than one), promote the single survivor's own children, or
set `children` to the empty list; on zero children stop. -/
def find_clumps (w : World) : Nat → Clump → ℚ → ℚ → ℚ → Option Clump
  | 0, _, _, _, _ => none
  | fuel + 1, clump, min_val, max_val, d_clump =>
    if min_val ≥ max_val then some clump
    else
      let c1 := Clump.find_children w clump min_val none
      if c1.childList.length = 1 then
        find_clumps w fuel c1 (min_val * d_clump) max_val d_clump
      else if 0 < c1.childList.length then
        match investigateWith w
            (fun k => find_clumps w fuel k (min_val * d_clump) max_val d_clump)
            c1.childList with
        | none => none
        | some these =>
          if 1 < these.length then some (c1.setChildren (some these))
          else if these.length = 1 then
            some (c1.setChildren ((these.headD c1).children))
          else some (c1.setChildren (some []))
      else some c1
termination_by structural fuel _ _ _ _ => fuel

mutual
/-- `Clump.add_info_item(info_item, *args)`: resolves the name and
parameters through the registry, appends the resolved callback to this
node's `clump_info`, and — unless `children` is unset — recurses into every
child.  The source's recursive call `child.add_info_item(info_item)`
passes only the name: the `*args` are not forwarded, so each descendant
re-resolves the item with no parameters. -/
def Clump.add_info_item (w : World) (name : String) (args : List ℤ) :
    Clump → Clump
  | .mk d f mn mx cf info fn fv none =>
    .mk d f mn mx cf (info ++ [w.registryFind name args]) fn fv none
  | .mk d f mn mx cf info fn fv (some ks) =>
    .mk d f mn mx cf (info ++ [w.registryFind name args]) fn fv
      (some (Clump.addInfoItemList w name ks))

/-- The `for child in self.children: child.add_info_item(info_item)` loop
(note: name only, no parameters). -/
def Clump.addInfoItemList (w : World) (name : String) :
    List Clump → List Clump
  | [] => []
  | k :: ks =>
    Clump.add_info_item w name [] k :: Clump.addInfoItemList w name ks
end

mutual
/-- `True` when every strict descendant of the node has the entry `e` in
its `clump_info` (used to state the info-item propagation property). -/
def Clump.allDescHas (e : InfoEntry) : Clump → Bool
  | .mk _ _ _ _ _ _ _ _ none => true
  | .mk _ _ _ _ _ _ _ _ (some ks) => Clump.allDescHasList e ks

/-- List form of `Clump.allDescHas`: every clump in the list, and all of
its strict descendants, carry the entry `e`. -/
def Clump.allDescHasList (e : InfoEntry) : List Clump → Bool
  | [] => true
  | k :: ks =>
    (decide (e ∈ k.clump_info) && Clump.allDescHas e k)
      && Clump.allDescHasList e ks
end

/-- `'\t' * level`. -/
def tabs (level : Nat) : String := String.join (List.replicate level "\t")

/-- `Clump.write_info(level, f_ptr)`: one `'\t'*level`-indented line per
entry of `clump_info`, each holding the formatted value of the callback
applied to this node.  Writers are modelled as producers of the written
string (sink/file management is I/O and out of scope). -/
def Clump.write_info (w : World) (c : Clump) (level : Nat) : String :=
  String.join (c.clump_info.map (fun item => tabs level ++ w.evalInfo item c ++ "\n"))

mutual
/-- `write_clump_index(clump, level, fh)`: writes the node header
(`'\t'*level` then `"Clump at level %d:\n"`), the node's `write_info`
block and a blank line, then recurses into every child at `level + 1`
when `children` is a non-empty list; a `None` or empty `children` simply
produces no recursion. -/
def write_clump_index (w : World) : Clump → Nat → String
  | .mk d f mn mx cf info fn fv ch, level =>
    tabs level ++ "Clump at level " ++ toString level ++ ":\n"
      ++ Clump.write_info w (.mk d f mn mx cf info fn fv ch) level ++ "\n"
      ++ (match ch with
          | some ks => writeClumpIndexList w ks (level + 1)
          | none => "")

/-- The `for child in clump.children` loop of `write_clump_index`. -/
def writeClumpIndexList (w : World) : List Clump → Nat → String
  | [], _ => ""
  | k :: ks, level =>
    write_clump_index w k level ++ writeClumpIndexList w ks level
end

mutual
/-- `write_clumps(clump, level, fh)`: when `children` is `None` or empty
the node is reported (`"\t"*level ++ "Clump:\n"`, its `write_info` block
at `level`, a blank line); when `children` is non-empty it only recurses,
and each child is visited at level `0`. -/
def write_clumps (w : World) : Clump → Nat → String
  | .mk d f mn mx cf info fn fv ch, level =>
    (match ch with
      | none =>
        tabs level ++ "Clump:\n"
          ++ Clump.write_info w (.mk d f mn mx cf info fn fv ch) level ++ "\n"
      | some [] =>
        tabs level ++ "Clump:\n"
          ++ Clump.write_info w (.mk d f mn mx cf info fn fv ch) level ++ "\n"
      | some (_ :: _) => "")
      ++ (match ch with
          | some (k :: ks) => writeClumpsList w (k :: ks)
          | _ => "")

/-- The `for child in clump.children: write_clumps(child, 0, fh)` loop. -/
def writeClumpsList (w : World) : List Clump → String
  | [] => ""
  | k :: ks => write_clumps w k 0 ++ writeClumpsList w ks
end

/-! ## Serialization: `Clump.__reduce__` / `_reconstruct_clump`

The pickle payload of a node is
`(parent, field, min_val, max_val, function_value, children, data,
clump_info, function)`.  To talk about parent *pointers* — which the
purely functional `Clump` tree cannot carry — reconstruction is modelled
over `CObj`, a node type with an explicit object identity `oid` and a
parent reference `parentOid`.  The pickled `data` of a node arrives as a
pair `(pf, region)`: the region reference carries the outer
dataset/snapshot identifier `pf`, which `_reconstruct_clump` strips
(`obj.data = data[1]`) and, for the root, returns alongside the rebuilt
node (`return (data[0], obj)`). -/

/-- A reconstructed clump node with explicit object identity (`oid`) and
an explicit parent reference (`parentOid`), mirroring the attributes set
by `_reconstruct_clump`. -/
inductive CObj where
  | mk (oid : Nat) (parentOid : Option Nat) (field : String)
      (min_val max_val : ℚ) (function_value : Option Bool)
      (clump_info : List InfoEntry) (function : String)
      (data : Region) (children : List CObj)

namespace CObj

def oid : CObj → Nat
  | .mk o _ _ _ _ _ _ _ _ _ => o

def parentOid : CObj → Option Nat
  | .mk _ p _ _ _ _ _ _ _ _ => p

def data : CObj → Region
  | .mk _ _ _ _ _ _ _ _ d _ => d

def children : CObj → List CObj
  | .mk _ _ _ _ _ _ _ _ _ ks => ks

/-- `child.parent = obj`: overwrite the parent reference carried by a
reconstructed child. -/
def setParentOid : CObj → Option Nat → CObj
  | .mk o _ f mn mx fv info fn d ks, p => .mk o p f mn mx fv info fn d ks

end CObj

/-- The `parent` argument received by `_reconstruct_clump` after
unpickling: `None` for the root; for a non-root node the parent was itself
reconstructed, as either the bare parent object or — when the parent was
the root — the pair `(pf, root)` that `_reconstruct_clump` returns for
roots. -/
inductive ParentArg where
  | null
  | rootPair (pf : Nat) (c : CObj)
  | clumpObj (c : CObj)

/-- Modelled from the spec: the helper `iterable` (from the package's
`funcs` module, not part of this source file) used on the `parent`
argument; a reconstructed root arrives as a `(dataset, clump)` pair, which
supports iteration/len, while a bare clump object and `None` do not, so
`parent = parent[1]` extracts the clump from the pair and leaves the other
shapes alone. -/
def parentExtract : ParentArg → Option CObj
  | .null => none
  | .rootPair _ c => some c
  | .clumpObj c => some c

/-- The result of `_reconstruct_clump`: the pair `(pf, obj)` for a root,
the bare object otherwise. -/
inductive ReconResult where
  | pair (pf : Nat) (c : CObj)
  | obj (c : CObj)

/-- The reconstructed node inside either result shape. -/
def ReconResult.node : ReconResult → CObj
  | .pair _ c => c
  | .obj c => c

/-- `_reconstruct_clump(parent, field, mi, ma, function_value, children,
data, clump_info, function)`: allocates a fresh object (`object.__new__`,
whose identity is the explicit `freshOid`), normalizes the `parent`
argument (extracting the clump from a `(pf, root)` pair), defaults a
`None` children list to `[]`, stores the payload attributes, then
overrides every child's parent reference with the freshly built object
(`for child in children: child.parent = obj`), strips the outer dataset
identifier from the region (`obj.data = data[1]`), and for a root returns
`(data[0], obj)` instead of the bare object. -/
def reconstruct_clump (parent : ParentArg) (field : String) (mi ma : ℚ)
    (function_value : Option Bool) (children : Option (List CObj))
    (data : Nat × Region) (clump_info : List InfoEntry) (function : String)
    (freshOid : Nat) : ReconResult :=
  let parentN := parentExtract parent
  let ks := children.getD []
  let ks' := ks.map (fun k => k.setParentOid (some freshOid))
  let obj : CObj :=
    .mk freshOid (parentN.map CObj.oid) field mi ma function_value
      clump_info function data.2 ks'
  match parentN with
  | none => .pair data.1 obj
  | some _ => .obj obj

/-! ## Heap model for the `clump_info` deep copy in `Clump.__init__`

`self.clump_info = copy.deepcopy(clump_info)` aliases nothing: the child
gets a fresh list object whose content equals the parent's at that moment.
To express aliasing (which a purely functional tree cannot), the info
lists live in a heap of list cells addressed by index; constructing a
child allocates a fresh cell holding a copy of the parent's cell. -/

/-- The `self.clump_info = copy.deepcopy(clump_info)` line of
`Clump.__init__` for a child constructed with an inherited info list:
given the heap and the parent's cell index, allocate a fresh cell with the
same content and return the new heap together with the child's cell
index. -/
def clumpInfoInit (heap : List (List InfoEntry)) (parentRef : Nat) :
    List (List InfoEntry) × Nat :=
  (heap ++ [heap.getD parentRef []], heap.length)

/-- Direct in-place mutation of one heap cell (e.g. `lst.clear()` or
`lst.append(x)` on the parent's list object, not going through
`add_info_item`/`clear_clump_info`). -/
def heapSet (heap : List (List InfoEntry)) (i : Nat) (v : List InfoEntry) :
    List (List InfoEntry) := heap.set i v

/-! ## Concrete test fixtures

Small worlds used to instantiate the theorems.  Regions are numbered:
`0` is the root region; `cut_region` maps contour ids to fresh region
ids.  The registry resolves a name and parameters to the pair itself. -/

/-- A world where the root region decomposes into exactly one contour
(id `0`) at threshold `1`, and nothing decomposes at other thresholds or
regions. -/
def wSingle : World where
  identify := fun r _ mn _ => if r = 0 ∧ mn = 1 then (1, [[0]]) else (0, [])
  cut_region := fun _ _ _ => 1
  size := fun _ => 1
  fmin := fun _ _ => 0
  fmax := fun _ _ => 10
  evalPred := fun _ _ => true
  registryFind := fun n a => (n, a)
  evalInfo := fun e _ => e.1

/-- A world where the root region splits into two contours (`0` and `1`,
cut to regions `1` and `2`), no sub-region decomposes further, and the
validity predicate always holds. -/
def wPair : World where
  identify := fun r _ _ _ => if r = 0 then (2, [[0, 1]]) else (0, [])
  cut_region := fun _ _ cid => if cid = 0 then 1 else 2
  size := fun _ => 1
  fmin := fun _ _ => 0
  fmax := fun _ _ => 10
  evalPred := fun _ _ => true
  registryFind := fun n a => (n, a)
  evalInfo := fun e _ => e.1

/-- A world where no region ever decomposes (the extractor finds no
contours anywhere). -/
def wEmpty : World where
  identify := fun _ _ _ _ => (0, [])
  cut_region := fun _ _ _ => 1
  size := fun _ => 1
  fmin := fun _ _ => 0
  fmax := fun _ _ => 10
  evalPred := fun _ _ => true
  registryFind := fun n a => (n, a)
  evalInfo := fun e _ => e.1

/-- A freshly built root clump over region `0`: no info items, predicate
expression `"pred"`, validity not yet evaluated, children unset. -/
def c0 : Clump := .mk 0 "density" 0 10 none [] "pred" none none

/-- A two-node tree: a root over region `0` with one existing child over
region `1` (as after one decomposition step). -/
def child6 : Clump := .mk 1 "density" 0 1 none [] "pred" none none

/-- See `child6`. -/
def root6 : Clump := .mk 0 "density" 0 10 none [] "pred" none (some [child6])

/-- A node with one info item whose `children` is in the unset state
(`find_children` never ran). -/
def cUnset : Clump := .mk 0 "density" 0 10 none [("total_cells", [])] "pred" none none

/-- **C5.** `IsValid()` evaluates the validity predicate at most once per
node: on a node whose `function_value` is still `None`, the call computes
`eval(self.function)` and caches it; any later call — under a different
world (mutated state backing the predicate) and after the node's data and
children have been mutated — returns the identical cached value and leaves
the node unchanged, without consulting the predicate again. -/
theorem C5_isValid_memo (w w' : World) (c : Clump)
    (h : c.function_value = none) (d' : Region) (ch' : Option (List Clump)) :
    (Clump.isValid w c).1 = w.evalPred c.function c
    ∧ (Clump.isValid w c).2.function_value = some (Clump.isValid w c).1
    ∧ Clump.isValid w' (((Clump.isValid w c).2.setData d').setChildren ch')
        = ((Clump.isValid w c).1,
           ((Clump.isValid w c).2.setData d').setChildren ch') := by
  obtain ⟨d, f, mn, mx, cf, info, fn, fv, ch⟩ := c
  simp only [Clump.function_value] at h
  subst h
  refine ⟨rfl, rfl, rfl⟩

/-- **C5, witness.** The memoization property at a concrete node with an
unevaluated predicate, mutated data/children and a different world for
the second call. -/
theorem C5_witness :
    c0.function_value = none
    ∧ ((Clump.isValid wPair c0).1 = wPair.evalPred c0.function c0
      ∧ (Clump.isValid wPair c0).2.function_value = some (Clump.isValid wPair c0).1
      ∧ Clump.isValid wSingle (((Clump.isValid wPair c0).2.setData 5).setChildren (some []))
          = ((Clump.isValid wPair c0).1,
             ((Clump.isValid wPair c0).2.setData 5).setChildren (some []))) :=
  ⟨rfl, C5_isValid_memo wPair wSingle c0 rfl 5 (some [])⟩

/-- **C7.** `find_children` is idempotent on identical inputs and its
result does not depend on previously computed children: running it a
second time with the same `min_val`/`max_val` on the unchanged region
gives the very same node (in particular the same contour-id set and child
count), and replacing the prior `children` by anything at all before the
call does not change the result (each re-invocation discards the previous
children). -/
theorem C7_find_children_idem (w : World) (c : Clump) (mn : ℚ)
    (mxo : Option ℚ) :
    Clump.find_children w (Clump.find_children w c mn mxo) mn mxo
        = Clump.find_children w c mn mxo
    ∧ ∀ x : Option (List Clump),
        Clump.find_children w (c.setChildren x) mn mxo
          = Clump.find_children w c mn mxo := by
  obtain ⟨d, f, mn', mx', cf, info, fn, fv, ch⟩ := c
  exact ⟨rfl, fun x => rfl⟩

/-- **C8 (amended).** Only `min_val >= max_val` acts as the immediate
base case of `find_clumps`: in that case the call returns the node
untouched.  (The `step_factor` precondition of the claim is *not*
checked by the code — see the counterexample.) -/
theorem C8_base_case (w : World) (f : Nat) (c : Clump) (mn mx d : ℚ)
    (h : mn ≥ mx) : find_clumps w (f + 1) c mn mx d = some c := by
  simp only [find_clumps, if_pos h]

/-- **C8, witness.** The base case at a concrete violated threshold
ordering (`min_val = 5 >= 2 = max_val`), with `step_factor = 1`. -/
theorem C8_witness :
    (5 : ℚ) ≥ 2 ∧ find_clumps wSingle 1 c0 5 2 1 = some c0 :=
  ⟨by norm_num, C8_base_case wSingle 0 c0 5 2 1 (by norm_num)⟩

/-- **C8, counterexample.** A call violating only the `step_factor > 1`
precondition (`step_factor = 1`, `min_val = 1 < 2 = max_val`) does *not*
return immediately with the node unchanged: `find_clumps` proceeds into
`find_children`, and the node's `children` goes from unset to the
computed empty list. -/
theorem C8_counterexample :
    ¬ ((1 : ℚ) ≥ 2) ∧ (1 : ℚ) ≤ 1 ∧ c0.children = none
    ∧ (find_clumps wEmpty 1 c0 1 2 1).map Clump.children = some (some []) := by
  refine ⟨by norm_num, by norm_num, rfl, ?_⟩
  norm_num [find_clumps, Clump.find_children, wEmpty, c0, uniqueSorted,
    Clump.childList, Clump.setChildren, Clump.children, Clump.data,
    Clump.field, Clump.max_val]

/-- **C10.** A child constructed with an inherited info list stores a
deep copy: in the heap model of `self.clump_info = copy.deepcopy(...)`,
the freshly allocated child cell holds content equal to the parent's cell
at construction time, and directly overwriting the parent's cell
afterwards (clearing or appending, i.e. storing any new list) leaves the
child's cell unchanged; correspondingly, in the functional tree the
constructed child's `clump_info` value equals the parent's. -/
theorem C10_deepcopy (heap : List (List InfoEntry)) (p : Nat)
    (h : p < heap.length) :
    ((clumpInfoInit heap p).1.getD (clumpInfoInit heap p).2 [] = heap.getD p [])
    ∧ (∀ v, (heapSet (clumpInfoInit heap p).1 p v).getD (clumpInfoInit heap p).2 []
          = heap.getD p [])
    ∧ (∀ (w : World) (nc : Region) (c : Clump),
        (Clump.mkChild w nc c).clump_info = c.clump_info) := by
  refine ⟨?_, ?_, ?_⟩
  · simp only [clumpInfoInit, List.getD_eq_getElem?_getD,
      List.getElem?_concat_length, Option.getD_some]
  · intro v
    simp only [clumpInfoInit, heapSet, List.getD_eq_getElem?_getD]
    rw [List.getElem?_set_ne (Nat.ne_of_lt h)]
    simp only [List.getElem?_concat_length, Option.getD_some]
  · intro w nc c
    obtain ⟨d, f, mn, mx, cf, info, fn, fv, ch⟩ := c
    rfl

/-- **C10, witness.** The deep-copy behaviour on a concrete one-cell
heap: the child cell equals the parent cell at construction and survives
a direct overwrite of the parent cell. -/
theorem C10_witness :
    0 < ([[("cell_mass", [])]] : List (List InfoEntry)).length
    ∧ ((clumpInfoInit [[("cell_mass", [])]] 0).1.getD
          (clumpInfoInit [[("cell_mass", [])]] 0).2 [] = [("cell_mass", [])])
    ∧ ((heapSet (clumpInfoInit [[("cell_mass", [])]] 0).1 0 []).getD
          (clumpInfoInit [[("cell_mass", [])]] 0).2 [] = [("cell_mass", [])]) :=
  ⟨by decide,
   (C10_deepcopy [[("cell_mass", [])]] 0 (by decide)).1,
   (C10_deepcopy [[("cell_mass", [])]] 0 (by decide)).2.1 []⟩

/-- **C4.** `_reconstruct_clump` re-establishes every reconstructed
child's parent pointer to the freshly reconstructed parent object —
whatever stale parent reference the payload children carried — and, for a
root (parent payload `None`), strips the outer dataset identifier from
the `(pf, region)` pair carried with the region reference
(`obj.data = data[1]`) and restores it alongside the rebuilt root
(`return (data[0], obj)`). -/
theorem C4_reconstruct (parent : ParentArg) (field : String) (mi ma : ℚ)
    (fv : Option Bool) (children : Option (List CObj)) (data : Nat × Region)
    (info : List InfoEntry) (fn : String) (freshOid : Nat) :
    (∀ k ∈ (reconstruct_clump parent field mi ma fv children data info fn
        freshOid).node.children,
      k.parentOid = some (reconstruct_clump parent field mi ma fv children
        data info fn freshOid).node.oid)
    ∧ (reconstruct_clump parent field mi ma fv children data info fn
        freshOid).node.data = data.2
    ∧ (parent = .null →
        reconstruct_clump parent field mi ma fv children data info fn freshOid
          = .pair data.1 (reconstruct_clump parent field mi ma fv children
              data info fn freshOid).node) := by
  refine ⟨?_, ?_, ?_⟩
  · intro k hk
    cases parent <;>
    · simp only [reconstruct_clump, parentExtract, ReconResult.node,
        CObj.children, CObj.oid] at hk ⊢
      obtain ⟨k0, _, rfl⟩ := List.mem_map.mp hk
      obtain ⟨o, p, f, mn, mx, v, i, g, d, ks⟩ := k0
      rfl
  · cases parent <;> rfl
  · intro hp
    subst hp
    rfl

/-- **C4, witness.** Reconstruction of a concrete root whose single
payload child carries a stale parent reference (`some 99`): the rebuilt
child points at the rebuilt parent (`oid = 11`), the dataset identifier
`3` is stripped from the region pair `(3, 4)` and returned alongside the
root. -/
theorem C4_witness :
    ((CObj.mk 7 (some 99) "density" 0 1 none [] "pred" 5 []).setParentOid
        (some 11) ∈ (reconstruct_clump .null "density" 0 1 none
          (some [CObj.mk 7 (some 99) "density" 0 1 none [] "pred" 5 []])
          (3, 4) [] "pred" 11).node.children)
    ∧ ((CObj.mk 7 (some 99) "density" 0 1 none [] "pred" 5 []).setParentOid
        (some 11)).parentOid = some 11
    ∧ (reconstruct_clump .null "density" 0 1 none
        (some [CObj.mk 7 (some 99) "density" 0 1 none [] "pred" 5 []])
        (3, 4) [] "pred" 11).node.data = 4
    ∧ reconstruct_clump .null "density" 0 1 none
        (some [CObj.mk 7 (some 99) "density" 0 1 none [] "pred" 5 []])
        (3, 4) [] "pred" 11
      = .pair 3 ((reconstruct_clump .null "density" 0 1 none
          (some [CObj.mk 7 (some 99) "density" 0 1 none [] "pred" 5 []])
          (3, 4) [] "pred" 11).node) := by
  have hmem : (CObj.mk 7 (some 99) "density" 0 1 none [] "pred" 5 []).setParentOid
      (some 11) ∈ (reconstruct_clump .null "density" 0 1 none
        (some [CObj.mk 7 (some 99) "density" 0 1 none [] "pred" 5 []])
        (3, 4) [] "pred" 11).node.children := by
    simp only [reconstruct_clump, parentExtract, Option.getD_some, List.map_cons,
      List.map_nil, ReconResult.node, CObj.children]
    exact List.mem_singleton.mpr rfl
  refine ⟨hmem, ?_, ?_, ?_⟩
  · exact (C4_reconstruct .null "density" 0 1 none
      (some [CObj.mk 7 (some 99) "density" 0 1 none [] "pred" 5 []])
      (3, 4) [] "pred" 11).1 _ hmem
  · exact (C4_reconstruct .null "density" 0 1 none
      (some [CObj.mk 7 (some 99) "density" 0 1 none [] "pred" 5 []])
      (3, 4) [] "pred" 11).2.1
  · exact (C4_reconstruct .null "density" 0 1 none
      (some [CObj.mk 7 (some 99) "density" 0 1 none [] "pred" 5 []])
      (3, 4) [] "pred" 11).2.2 rfl

/-- Two nested `continue`-style skips in a loop body equal a filter
followed by a map. -/
theorem filterMap_double_if {α : Type} (pb qb : ℤ → Prop) [DecidablePred pb]
    [DecidablePred qb] (g : ℤ → α) :
    ∀ l : List ℤ,
      l.filterMap (fun x => if pb x then none else if qb x then none
          else some (g x))
        = (l.filter (fun x => decide (¬ pb x) && decide (¬ qb x))).map g := by
  intro l
  induction l with
  | nil => simp
  | cons x xs ih =>
    by_cases h1 : pb x
    · simp [h1, ih]
    · by_cases h2 : qb x
      · simp [h1, h2, ih]
      · simp [h1, h2, ih]

/-- The contour ids of `find_children` that actually generate children,
as described by the claim: the distinct extractor ids in ascending order,
with the sentinel `-1` and the ids whose cut region has zero points
removed. -/
def childIds (w : World) (c : Clump) (min_val : ℚ) (max_valArg : Option ℚ) :
    List ℤ :=
  let cids := (w.identify c.data c.field min_val (max_valArg.getD c.max_val)).2
  (uniqueSorted cids.flatten).filter
    (fun cid => decide (¬ cid = -1)
      && decide (¬ w.size (w.cut_region c.data cids cid) = 0))

/-- **C3.** `find_children` builds exactly one child per distinct
non-sentinel contour id whose cut region is non-empty, in ascending
contour-id order: the computed children list is the map of the child
constructor over `childIds` (so every child's region is a non-empty cut
and children follow the id order); `childIds` is strictly ascending
(distinct, ascending order); and an id generates a child exactly when the
extractor reported it, it is not `-1`, and its cut region has at least
one point. -/
theorem C3_find_children (w : World) (c : Clump) (min_val : ℚ)
    (max_valArg : Option ℚ) :
    (Clump.find_children w c min_val max_valArg).children
        = some ((childIds w c min_val max_valArg).map
            (fun cid => Clump.mkChild w
              (w.cut_region c.data
                (w.identify c.data c.field min_val
                  (max_valArg.getD c.max_val)).2 cid) c))
    ∧ (childIds w c min_val max_valArg).Sorted (· < ·)
    ∧ ∀ cid : ℤ, cid ∈ childIds w c min_val max_valArg ↔
        (cid ∈ ((w.identify c.data c.field min_val
              (max_valArg.getD c.max_val)).2).flatten
          ∧ cid ≠ -1
          ∧ w.size (w.cut_region c.data
              (w.identify c.data c.field min_val
                (max_valArg.getD c.max_val)).2 cid) ≠ 0) := by
  refine ⟨?_, ?_, ?_⟩
  · obtain ⟨d, f, mn, mx, cf, info, fn, fv, ch⟩ := c
    simp only [Clump.find_children, childIds, Clump.setChildren, Clump.children,
      Option.some.injEq]
    exact filterMap_double_if _ _ _ _
  · exact List.Pairwise.filter _ (sorted_uniqueSorted _)
  · intro cid
    simp only [childIds, List.mem_filter, mem_uniqueSorted, Bool.and_eq_true,
      decide_eq_true_eq]

/-- **C3, witness.** The characterization at a concrete world where the
root decomposes into contours `0` and `1`: the generating ids are
strictly ascending, and id `0` generates a child (present, non-sentinel,
non-empty region). -/
theorem C3_witness :
    (childIds wPair c0 1 none).Sorted (· < ·)
    ∧ ((0 : ℤ) ∈ childIds wPair c0 1 none ↔
        ((0 : ℤ) ∈ ((wPair.identify c0.data c0.field 1
              ((none : Option ℚ).getD c0.max_val)).2).flatten
          ∧ (0 : ℤ) ≠ -1
          ∧ wPair.size (wPair.cut_region c0.data
              (wPair.identify c0.data c0.field 1
                ((none : Option ℚ).getD c0.max_val)).2 0) ≠ 0)) :=
  ⟨(C3_find_children wPair c0 1 none).2.1,
   (C3_find_children wPair c0 1 none).2.2 0⟩

/-- **C2.** During `find_clumps`, the loop over a node's children first
recurses into each child (`find_clumps` at the stepped threshold) and is
exactly the in-order filter of the recursed children by the survival
test; and a child passes the survival test precisely when its own
children list is non-empty after its recursive resolution, or it is
childless (children unset or computed empty) and `_isValid()` returns
true.  Survivors are kept in their original (ascending contour-id)
order, a dropped child drops with its whole subtree. -/
theorem C2_survival (w : World) (f : Nat) (mn mx d : ℚ) (ks : List Clump) :
    investigateWith w (fun k => find_clumps w f k mn mx d) ks
      = (ks.mapM (fun k => find_clumps w f k mn mx d)).map
          (fun rk => rk.filterMap (surviveStep w))
    ∧ (∀ k : Clump, (surviveStep w k).isSome = true ↔
        ((∃ l, k.children = some l ∧ l ≠ []) ∨
         ((k.children = none ∨ k.children = some []) ∧ (Clump.isValid w k).1 = true))) := by
  constructor
  · induction ks with
    | nil => simp [investigateWith, List.mapM.loop]
    | cons k ks ih =>
      simp only [investigateWith, List.mapM_cons]
      cases hk : find_clumps w f k mn mx d with
      | none => simp
      | some k1 =>
        rw [ih]
        cases hks : List.mapM (fun k => find_clumps w f k mn mx d) ks with
        | none => simp
        | some rest =>
          simp only [Option.map_some, Option.some_bind, Option.bind_some,
            List.filterMap_cons]
          cases hs : surviveStep w k1 <;> simp [hs, List.filterMap_cons]
  · intro k
    obtain ⟨d1, f1, mn1, mx1, cf, info, fn, fv, ch⟩ := k
    match ch with
    | none =>
      cases hb : (Clump.isValid w (Clump.mk d1 f1 mn1 mx1 cf info fn fv none)).1 <;>
        simp [surviveStep, Clump.children, hb]
    | some [] =>
      cases hb : (Clump.isValid w (Clump.mk d1 f1 mn1 mx1 cf info fn fv (some []))).1 <;>
        simp [surviveStep, Clump.children, hb]
    | some (a :: as) =>
      simp [surviveStep, Clump.children]

/-- **C2, witness.** The loop equation at a concrete child list and the
survival test at a concrete childless node. -/
theorem C2_witness :
    investigateWith wPair (fun k => find_clumps wPair 1 k 2 10 2) [c0]
      = (([c0].mapM (fun k => find_clumps wPair 1 k 2 10 2)).map
          (fun rk => rk.filterMap (surviveStep wPair)))
    ∧ ((surviveStep wPair c0).isSome = true ↔
        ((∃ l, c0.children = some l ∧ l ≠ []) ∨
         ((c0.children = none ∨ c0.children = some []) ∧ (Clump.isValid wPair c0).1 = true))) :=
  ⟨(C2_survival wPair 1 2 10 2 [c0]).1,
   (C2_survival wPair 1 2 10 2 [c0]).2 c0⟩

/-- **C1 (amended).** The post-recursion filter/collapse rule of
`find_clumps` is as claimed: entering the more-than-one-child branch, the
node's final children are — depending on the survivor list `these` of the
child loop — all survivors when more than one survives, the single
survivor's own children list (the survivor itself discarded) when exactly
one survives, and the empty list when none survives.  The claimed
consequence that no internal node of the finished tree has exactly one
child does **not** hold in general: when the stepped threshold reaches
`max_val` right after a single-child decomposition, the base case leaves
that single child attached (see the counterexample). -/
theorem C1_collapse (w : World) (f : Nat) (c : Clump) (mn mx d : ℚ)
    (h1 : ¬ mn ≥ mx)
    (h2 : ¬ (Clump.find_children w c mn none).childList.length = 1)
    (h3 : 0 < (Clump.find_children w c mn none).childList.length) :
    find_clumps w (f + 1) c mn mx d =
      (investigateWith w (fun k => find_clumps w f k (mn * d) mx d)
          (Clump.find_children w c mn none).childList).map
        (fun these =>
          if 1 < these.length then
            (Clump.find_children w c mn none).setChildren (some these)
          else if these.length = 1 then
            (Clump.find_children w c mn none).setChildren
              ((these.headD (Clump.find_children w c mn none)).children)
          else (Clump.find_children w c mn none).setChildren (some [])) := by
  simp only [find_clumps, if_neg h1, if_neg h2, if_pos h3]
  cases hinv : investigateWith w (fun k => find_clumps w f k (mn * d) mx d)
      (Clump.find_children w c mn none).childList with
  | none => simp
  | some these =>
    by_cases hA : 1 < these.length
    · simp [hA]
    · by_cases hB : these.length = 1
      · simp [hA, hB]
      · simp [hA, hB]

/-- **C1, witness.** The collapse rule at a concrete world where the
root splits into two children that both survive. -/
theorem C1_witness :
    (¬ (1 : ℚ) ≥ 10)
    ∧ (¬ (Clump.find_children wPair c0 1 none).childList.length = 1)
    ∧ (0 < (Clump.find_children wPair c0 1 none).childList.length)
    ∧ (find_clumps wPair 2 c0 1 10 2 =
        (investigateWith wPair (fun k => find_clumps wPair 1 k (1 * 2) 10 2)
            (Clump.find_children wPair c0 1 none).childList).map
          (fun these =>
            if 1 < these.length then
              (Clump.find_children wPair c0 1 none).setChildren (some these)
            else if these.length = 1 then
              (Clump.find_children wPair c0 1 none).setChildren
                ((these.headD (Clump.find_children wPair c0 1 none)).children)
            else (Clump.find_children wPair c0 1 none).setChildren (some []))) :=
  ⟨by norm_num,
   by decide,
   by decide,
   C1_collapse wPair 1 c0 1 10 2 (by norm_num) (by decide) (by decide)⟩

/-- **C1, counterexample.** After `find_clumps(c0, 1, 2, 2)` over a world
whose root region decomposes into exactly one contour at threshold `1`,
the run terminates (the re-threshold recursion hits the
`min_val >= max_val` base case at `2 >= 2`) and the finished root is an
internal node with exactly **one** child — refuting the claimed invariant
that no internal node of the finished tree has exactly one child. -/
theorem C1_counterexample :
    (find_clumps wSingle 2 c0 1 2 2).map
        (fun r => (Clump.children r).map List.length) = some (some 1) := by
  simp only [find_clumps]
  norm_num
  simp [Clump.find_children, wSingle, c0, uniqueSorted, insertSorted,
    Clump.childList, Clump.setChildren, Clump.children, Clump.mkChild,
    Clump.data, Clump.field, Clump.max_val, Clump.cached_fields,
    Clump.clump_info, Clump.function]

theorem add_info_item_clump_info (w : World) (name : String) (args : List ℤ)
    (c : Clump) :
    (Clump.add_info_item w name args c).clump_info
      = c.clump_info ++ [w.registryFind name args] := by
  obtain ⟨d, f, mn, mx, cf, info, fn, fv, ch⟩ := c
  cases ch <;> simp [Clump.add_info_item, Clump.clump_info]

theorem add_info_item_desc_aux (w : World) (name : String) :
    ∀ n : Nat,
      (∀ c : Clump, sizeOf c ≤ n → ∀ args : List ℤ,
        Clump.allDescHas (w.registryFind name [])
          (Clump.add_info_item w name args c) = true)
      ∧ (∀ ks : List Clump, sizeOf ks ≤ n →
        Clump.allDescHasList (w.registryFind name [])
          (Clump.addInfoItemList w name ks) = true) := by
  intro n
  induction n with
  | zero =>
    constructor
    · intro c hc
      exfalso
      obtain ⟨d, f, mn, mx, cf, info, fn, fv, ch⟩ := c
      simp [Clump.mk.sizeOf_spec] at hc
    · intro ks hk
      exfalso
      cases ks with
      | nil => simp at hk
      | cons a l =>
        simp [List.cons.sizeOf_spec] at hk
  | succ n ih =>
    constructor
    · intro c hc args
      obtain ⟨d, f, mn, mx, cf, info, fn, fv, ch⟩ := c
      cases ch with
      | none => simp [Clump.add_info_item, Clump.allDescHas]
      | some ks =>
        simp only [Clump.add_info_item, Clump.allDescHas]
        apply ih.2
        simp [Clump.mk.sizeOf_spec] at hc
        omega
    · intro ks hk
      cases ks with
      | nil => simp [Clump.addInfoItemList, Clump.allDescHasList]
      | cons k ks2 =>
        have hsz : sizeOf k ≤ n ∧ sizeOf ks2 ≤ n := by
          simp [List.cons.sizeOf_spec] at hk
          omega
        simp only [Clump.addInfoItemList, Clump.allDescHasList, Bool.and_eq_true]
        refine ⟨⟨?_, ?_⟩, ?_⟩
        · rw [add_info_item_clump_info]
          simp
        · exact ih.1 k hsz.1 []
        · exact ih.2 ks2 hsz.2

/-- **C6 (amended).** `add_info_item(name, *args)` resolves the name and
parameters through the registry and appends the result to this node's
`clump_info`, and every strict descendant also gains a freshly re-resolved
entry for the *name* — but resolved with **no** parameters, because the
recursive call forwards only the name (`child.add_info_item(info_item)`).
Descendants therefore carry a content-equivalent entry for `(name, params)`
only when the parameters are empty (see the counterexample). -/
theorem C6_add_info_item (w : World) (name : String) (args : List ℤ)
    (c : Clump) :
    (Clump.add_info_item w name args c).clump_info
        = c.clump_info ++ [w.registryFind name args]
    ∧ Clump.allDescHas (w.registryFind name [])
        (Clump.add_info_item w name args c) = true :=
  ⟨add_info_item_clump_info w name args c,
   (add_info_item_desc_aux w name (sizeOf c)).1 c (Nat.le_refl _) args⟩

/-- **C6, counterexample.** Adding a parameterized info item
(`name = "center_of_mass"`, params `[5]`) to a root with one existing
child resolves the item with its parameters on the root but with *empty*
parameters on the child: the child's `clump_info` becomes
`[("center_of_mass", [])]`, which contains no content-equivalent entry
for the `("center_of_mass", [5])` pair — refuting the claim that every
descendant is re-resolved with the same name *and parameters*. -/
theorem C6_counterexample :
    (Clump.add_info_item wSingle "center_of_mass" [5] root6).clump_info
        = [("center_of_mass", [5])]
    ∧ (Clump.add_info_item wSingle "center_of_mass" [5] root6).childList.map
        Clump.clump_info = [[("center_of_mass", [])]] := by
  constructor <;>
    simp [Clump.add_info_item, Clump.addInfoItemList, root6, child6, wSingle,
      Clump.clump_info, Clump.childList, Clump.children]

/-- **C9 (amended).** The report writers do *not* raise any error on a
node whose `children` is in the unset state: both `write_clumps` and
`write_clump_index` take the same branch as for a computed-and-empty
children list — the node is written as a leaf (its info block emitted)
and no recursion happens.  No `InvalidTreeStateError` (or any raise)
exists in the code; the unset state is silently treated as empty. -/
theorem C9_writers_unset (w : World) (c : Clump) (level : Nat)
    (h : c.children = none) :
    write_clumps w c level
        = tabs level ++ "Clump:\n" ++ Clump.write_info w c level ++ "\n"
    ∧ write_clump_index w c level
        = tabs level ++ "Clump at level " ++ toString level ++ ":\n"
          ++ Clump.write_info w c level ++ "\n" := by
  obtain ⟨d, f, mn, mx, cf, info, fn, fv, ch⟩ := c
  simp only [Clump.children] at h
  subst h
  constructor
  · simp [write_clumps, String.append_empty]
  · simp [write_clump_index, String.append_empty]

/-- **C9, witness.** The leaf-style output of both writers on a concrete
node whose decomposition never ran. -/
theorem C9_witness :
    cUnset.children = none
    ∧ (write_clumps wSingle cUnset 0
        = tabs 0 ++ "Clump:\n" ++ Clump.write_info wSingle cUnset 0 ++ "\n")
    ∧ (write_clump_index wSingle cUnset 0
        = tabs 0 ++ "Clump at level " ++ toString 0 ++ ":\n"
          ++ Clump.write_info wSingle cUnset 0 ++ "\n") :=
  ⟨rfl, (C9_writers_unset wSingle cUnset 0 rfl).1,
   (C9_writers_unset wSingle cUnset 0 rfl).2⟩

/-- **C9, counterexample.** On a node whose `children` is unset (the
decomposition never ran), both writers complete normally — producing
output byte-identical to the same node with a computed-and-empty children
list, and reporting the node as a leaf — instead of raising an
`InvalidTreeStateError`: the unset state *is* silently treated as an
empty children list. -/
theorem C9_counterexample :
    write_clumps wSingle cUnset 0
        = write_clumps wSingle (cUnset.setChildren (some [])) 0
    ∧ write_clump_index wSingle cUnset 0
        = write_clump_index wSingle (cUnset.setChildren (some [])) 0
    ∧ write_clumps wSingle cUnset 0 = "Clump:\ntotal_cells\n\n" := by
  refine ⟨?_, ?_, ?_⟩ <;>
    simp [write_clumps, write_clump_index, cUnset, Clump.setChildren,
      Clump.write_info, tabs, wSingle, Clump.clump_info, writeClumpsList,
      writeClumpIndexList, String.join]
